import Mathlib

/-!
Shallow embedding of the round-processing pipeline of the Georgist land value
simulation (`src/original/simulation.tsx`).

Modelling conventions:
* JS numbers are modelled by `ℚ` (all arithmetic in the pipeline is exact:
  integers and halves); agent wealth, which the program only ever creates via
  `Math.floor(Math.random() * maxWealth) + 1`, is modelled by `ℤ`.
* Agent ids (strings in the source) are modelled by `String`.
* `Math.random()` / `Date.now()` draws are modelled by an explicit `Entropy`
  argument: the source has no seedable generator, so each draw is an
  independent ambient input.
* JS `Array.prototype.sort` (stable since ES2019) is modelled by
  `List.insertionSort`, which is stable for the same comparator.
-/

namespace Georgist

set_option maxRecDepth 100000

/-- `GRID_SIZE` from the source. -/
def GRID_SIZE : Nat := 10

/-- `TOTAL_PARCELS` from the source. -/
def TOTAL_PARCELS : Nat := GRID_SIZE * GRID_SIZE

/-- An occupant stored on a parcel: `{ id, wealth, roundEntered, leaseStart,
leaseLength }` as placed by the auction loop. -/
structure Occupant where
  id : String
  wealth : Int
  roundEntered : Int
  leaseStart : Int
  leaseLength : Int
deriving DecidableEq, Repr

/-- The `source` tag attached to bidders in the agent pool. -/
inductive AgentSource where
  | expiredLease
  | unhousedCarry
  | newImmigrant
deriving DecidableEq, Repr

/-- A bidder in the auction pool (an unhoused agent carries `source := none`;
the assembler tags each entry).  The stale `leaseStart`/`leaseLength` fields
that a defender drags along in the source are dropped: they are overwritten on
placement and never read. -/
structure PoolAgent where
  id : String
  wealth : Int
  roundEntered : Int
  source : Option AgentSource
deriving DecidableEq, Repr

/-- Payload of the five auction outcome kinds (`auctionDetails` in the source). -/
inductive AuctionDetail where
  | contestedVacant (runnerUpId : String) (runnerUpWealth : Int)
  | vacantClaim
  | uncontestedRenewal
  | challengerWins (defenderId : String) (defenderWealth : Int) (winningBid : ℚ)
  | defenderWinsTie (challengerId : String) (challengerWealth : Int) (pricePaid : ℚ)
  | defenderWins (challengerId : String) (challengerWealth : Int) (pricePaid : ℚ)
deriving DecidableEq, Repr

/-- A round-stamped parcel history event. -/
inductive HEvent where
  | leaseExpired (round : Int) (agentId : String) (agentWealth : Int)
      (leaseStart leaseLength : Int) (leasePrice : Option ℚ) (currentValue : ℚ)
  | pricedOut (round : Int) (agentId : String) (agentWealth : Int) (currentValue : ℚ)
  | auctionSettled (round : Int) (wasContested : Bool) (agentId : String)
      (agentWealth : Int) (source : Option AgentSource) (leaseLength : Int)
      (leasePrice : ℚ) (currentValue : ℚ) (detail : AuctionDetail)
deriving DecidableEq, Repr

/-- A land parcel. -/
structure Parcel where
  id : Nat
  row : Int
  col : Int
  environmentScore : ℚ
  communityScore : ℚ
  occupant : Option Occupant
  leasePrice : Option ℚ
  roundsVacant : Nat
  totalRoundsVacant : Nat
  history : List HEvent
  justOccupied : Bool
deriving DecidableEq, Repr

instance : Inhabited Parcel :=
  ⟨⟨0, 0, 0, 0, 0, none, none, 0, 0, [], false⟩⟩

/-- An auction lot: `{ index, currentValue, baseValue?, defender }`. -/
structure Lot where
  index : Nat
  currentValue : ℚ
  baseValue : Option ℚ
  defender : Option Occupant
deriving DecidableEq, Repr

instance : Inhabited Lot := ⟨⟨0, 0, none, none⟩⟩

instance : Inhabited PoolAgent := ⟨⟨"", 0, 0, none⟩⟩

/-- The recognized configuration options. -/
structure Config where
  immigrationRate : Nat
  minLeaseLength : Int
  maxLeaseLength : Int
  maxWealth : Nat
  vacancyDecay : Bool
  environmentMultiplier : ℚ
  communityMultiplier : ℚ
deriving DecidableEq, Repr

/-- One round's ambient randomness: the source draws immigrant ids from
`Date.now()` plus `Math.random()`, immigrant wealth from `Math.random()`,
and each placed lease's length from `Math.random()`.  None of these is
derived from any seed in the configuration. -/
structure Entropy where
  immigrantId : Nat → String
  wealthRoll : Nat → Nat
  leaseRoll : Nat → Nat

/-- The live simulation state threaded between rounds. -/
structure SimState where
  round : Int
  parcels : List Parcel
  unhoused : List PoolAgent
deriving DecidableEq, Repr

/-! ### Index-aware list helpers (self-contained, with their `mem` lemmas) -/

/-- `mapIdxFrom f i l` maps `f` over `l` with indices starting at `i`. -/
def mapIdxFrom (f : Nat → α → β) : Nat → List α → List β
  | _, [] => []
  | i, x :: xs => f i x :: mapIdxFrom f (i + 1) xs

/-- Map with the element's index, as `Array.prototype.map((x, i) => …)`. -/
def mapIdxL (f : Nat → α → β) (l : List α) : List β :=
  mapIdxFrom f 0 l

/-- Replace the element at index `i` by `f` of it (like an indexed assignment). -/
def modifyAt (l : List α) (i : Nat) (f : α → α) : List α :=
  mapIdxL (fun j x => if j = i then f x else x) l

theorem mem_mapIdxFrom {f : Nat → α → β} {b : β} :
    ∀ {i : Nat} {l : List α}, b ∈ mapIdxFrom f i l → ∃ j x, x ∈ l ∧ b = f j x := by
  intro i l
  induction l generalizing i with
  | nil => intro h; cases h
  | cons x xs ih =>
    intro h
    rcases List.mem_cons.mp h with h | h
    · exact ⟨i, x, List.mem_cons_self x xs, h⟩
    · rcases ih h with ⟨j, y, hy, hb⟩
      exact ⟨j, y, List.mem_cons_of_mem x hy, hb⟩

theorem mem_mapIdxL {f : Nat → α → β} {b : β} {l : List α} :
    b ∈ mapIdxL f l → ∃ j x, x ∈ l ∧ b = f j x :=
  mem_mapIdxFrom

theorem mem_modifyAt {l : List α} {i : Nat} {f : α → α} {b : α} :
    b ∈ modifyAt l i f → b ∈ l ∨ ∃ x, x ∈ l ∧ b = f x := by
  intro h
  rcases mem_mapIdxL h with ⟨j, x, hx, hb⟩
  by_cases hj : j = i
  · subst hj; simp only [if_pos rfl] at hb; exact Or.inr ⟨x, hx, hb⟩
  · simp only [if_neg hj] at hb; subst hb; exact Or.inl hx

/-- Generic fold-invariant lemma used to push predicates through the pipeline. -/
theorem foldl_preserve {β : Type _} {α : Type _} (P : β → Prop) (f : β → α → β)
    (l : List α) (b : β) (hb : P b) (hf : ∀ b a, P b → P (f b a)) :
    P (l.foldl f b) := by
  induction l generalizing b with
  | nil => exact hb
  | cons x xs ih => exact ih (f b x) (hf b x hb)

/-! ### NeighborhoodScorer (`calculateCommunityScore`, lines 92–129) -/

/-- The list of loop offsets `lo..hi` (the JS `for` loops over `dr`/`dc`). -/
def pairsOf (ds : List Int) : List (Int × Int) :=
  ds.flatMap fun dr => ds.map fun dc => (dr, dc)

def deltas1 : List Int := [-1, 0, 1]

def deltas2 : List Int := [-2, -1, 0, 1, 2]

/-- Whether the grid cell at `(nr, nc)` exists and is occupied — the in-bounds
test plus `parcelsState[neighborIndex].occupant` truthiness from the source. -/
def occupiedAt (parcelsState : List Parcel) (nr nc : Int) : Bool :=
  if 0 ≤ nr ∧ nr < (GRID_SIZE : Int) ∧ 0 ≤ nc ∧ nc < (GRID_SIZE : Int) then
    ((parcelsState.getD (nr * (GRID_SIZE : Int) + nc).toNat default).occupant).isSome
  else false

/-- One accumulation step of the scorer's nested loops: skip guard, then a
conditional `score += w`. -/
def tallyStep (skip occ : Int × Int → Bool) (w : ℚ) (score : ℚ) (d : Int × Int) : ℚ :=
  if skip d then score else if occ d then score + w else score

/-- `calculateCommunityScore(parcelIndex, parcelsState)`: `+1` per occupied
immediate neighbor, `+0.5` per occupied second-ring cell. -/
def calculateCommunityScore (parcelIndex : Nat) (parcelsState : List Parcel) : ℚ :=
  let parcel := parcelsState.getD parcelIndex default
  let occ : Int × Int → Bool := fun d =>
    occupiedAt parcelsState (parcel.row + d.1) (parcel.col + d.2)
  let inner := (pairsOf deltas1).foldl
    (tallyStep (fun d => d.1 = 0 && d.2 = 0) occ 1) 0
  (pairsOf deltas2).foldl
    (tallyStep (fun d => d.1.natAbs ≤ 1 && d.2.natAbs ≤ 1) occ (1 / 2)) inner

/-- Modelled from the spec's §4.1 wording: the sum of `+1` for each of the 8
immediate neighbors (row/col ±1, excluding self) that is occupied and `+0.5`
for each second-ring cell (row/col offset magnitude 2 in either axis,
excluding inner-ring cells) that is occupied. -/
def specCommunityScore (parcelIndex : Nat) (parcelsState : List Parcel) : ℚ :=
  let parcel := parcelsState.getD parcelIndex default
  let occ : Int × Int → Bool := fun d =>
    occupiedAt parcelsState (parcel.row + d.1) (parcel.col + d.2)
  let innerCells := (pairsOf deltas2).filter
    (fun d => d ≠ (0, 0) && d.1.natAbs ≤ 1 && d.2.natAbs ≤ 1)
  let outerCells := (pairsOf deltas2).filter
    (fun d => d.1.natAbs = 2 || d.2.natAbs = 2)
  ((innerCells.countP occ : Nat) : ℚ) * 1
    + ((outerCells.countP occ : Nat) : ℚ) * (1 / 2)

theorem foldl_tallyStep (skip occ : Int × Int → Bool) (w : ℚ) :
    ∀ (l : List (Int × Int)) (s : ℚ),
      l.foldl (tallyStep skip occ w) s
        = s + w * (l.countP (fun d => !skip d && occ d) : ℚ) := by
  intro l
  induction l with
  | nil => intro s; simp
  | cons x xs ih =>
    intro s
    rw [List.foldl_cons, ih, List.countP_cons]
    unfold tallyStep
    by_cases hs : skip x
    · simp [hs]
    · by_cases ho : occ x
      · simp [hs, ho]; ring
      · simp [hs, ho]

theorem countP_le_of_imp {l : List α} {p q : α → Bool}
    (h : ∀ a, p a = true → q a = true) : l.countP p ≤ l.countP q := by
  induction l with
  | nil => simp
  | cons x xs ih =>
    rw [List.countP_cons, List.countP_cons]
    by_cases hp : p x = true
    · simp [hp, h x hp]; omega
    · simp only [hp, if_neg]
      by_cases hq : q x = true <;> simp [hq] <;> omega

theorem countP_and_comm (l : List α) (p q : α → Bool) :
    l.countP (fun a => p a && q a) = l.countP (fun a => q a && p a) :=
  List.countP_congr (fun a _ => by rw [Bool.and_comm])

/-- The inner loop of the scorer counts exactly the spec's 8 immediate
neighbors, whatever the occupancy predicate. -/
theorem inner_count_eq (occ : Int × Int → Bool) :
    (pairsOf deltas1).countP (fun d => !(d.1 = 0 && d.2 = 0) && occ d)
      = ((pairsOf deltas2).filter
          (fun d => d ≠ (0, 0) && d.1.natAbs ≤ 1 && d.2.natAbs ≤ 1)).countP occ := by
  rw [countP_and_comm, ← List.countP_filter]
  congr 1

/-- The outer loop of the scorer counts exactly the spec's second-ring cells,
whatever the occupancy predicate. -/
theorem outer_count_eq (occ : Int × Int → Bool) :
    (pairsOf deltas2).countP (fun d => !(d.1.natAbs ≤ 1 && d.2.natAbs ≤ 1) && occ d)
      = ((pairsOf deltas2).filter
          (fun d => d.1.natAbs = 2 || d.2.natAbs = 2)).countP occ := by
  rw [countP_and_comm, ← List.countP_filter]
  congr 1

theorem calculateCommunityScore_eq_spec (parcelIndex : Nat) (parcelsState : List Parcel) :
    calculateCommunityScore parcelIndex parcelsState
      = specCommunityScore parcelIndex parcelsState := by
  unfold calculateCommunityScore specCommunityScore
  rw [foldl_tallyStep, foldl_tallyStep, inner_count_eq, outer_count_eq]
  ring

theorem calculateCommunityScore_bounds (parcelIndex : Nat) (parcelsState : List Parcel) :
    0 ≤ calculateCommunityScore parcelIndex parcelsState
      ∧ calculateCommunityScore parcelIndex parcelsState ≤ 16 := by
  unfold calculateCommunityScore
  rw [foldl_tallyStep, foldl_tallyStep]
  have h1 : (pairsOf deltas1).countP
      (fun d => !(d.1 = 0 && d.2 = 0)
        && occupiedAt parcelsState
            ((parcelsState.getD parcelIndex default).row + d.1)
            ((parcelsState.getD parcelIndex default).col + d.2)) ≤ 8 := by
    calc (pairsOf deltas1).countP _
        ≤ (pairsOf deltas1).countP (fun d => !(d.1 = 0 && d.2 = 0)) :=
          countP_le_of_imp (fun a ha => by
            revert ha; cases h : (!(a.1 = 0 && a.2 = 0)) <;> simp [h])
      _ = 8 := by decide
  have h2 : (pairsOf deltas2).countP
      (fun d => !(d.1.natAbs ≤ 1 && d.2.natAbs ≤ 1)
        && occupiedAt parcelsState
            ((parcelsState.getD parcelIndex default).row + d.1)
            ((parcelsState.getD parcelIndex default).col + d.2)) ≤ 16 := by
    calc (pairsOf deltas2).countP _
        ≤ (pairsOf deltas2).countP (fun d => !(d.1.natAbs ≤ 1 && d.2.natAbs ≤ 1)) :=
          countP_le_of_imp (fun a ha => by
            revert ha; cases h : (!(a.1.natAbs ≤ 1 && a.2.natAbs ≤ 1)) <;> simp [h])
      _ = 16 := by decide
  constructor
  · positivity
  · have c1 := (Nat.cast_le (α := ℚ)).mpr h1
    have c2 := (Nat.cast_le (α := ℚ)).mpr h2
    push_cast at c1 c2 ⊢
    linarith

/-! ### Stable sorting (`Array.prototype.sort` with a comparator, lines 339/342)

JS `sort` is stable: ties keep their original relative order.  Mathlib's
`List.insertionSort` has the same behavior; the stability lemmas below make
that explicit. -/

theorem filter_orderedInsert_pos (r : α → α → Prop) [DecidableRel r]
    (p : α → Bool) (x : α) (hx : p x = true) (h : ∀ y, p y = true → r x y) :
    ∀ l : List α, (List.orderedInsert r x l).filter p = x :: l.filter p := by
  intro l
  induction l with
  | nil => simp [List.orderedInsert, hx]
  | cons y ys ih =>
    by_cases hr : r x y
    · rw [List.orderedInsert_of_le r ys hr, List.filter_cons_of_pos hx]
    · have hpy : p y = false := by
        cases hpy : p y
        · rfl
        · exact absurd (h y hpy) hr
      simp only [List.orderedInsert, if_neg hr]
      rw [List.filter_cons_of_neg (by simp [hpy]), ih,
        List.filter_cons_of_neg (by simp [hpy])]

theorem filter_orderedInsert_neg (r : α → α → Prop) [DecidableRel r]
    (p : α → Bool) (x : α) (hx : p x = false) :
    ∀ l : List α, (List.orderedInsert r x l).filter p = l.filter p := by
  intro l
  induction l with
  | nil => simp [List.orderedInsert, hx]
  | cons y ys ih =>
    by_cases hr : r x y
    · rw [List.orderedInsert_of_le r ys hr, List.filter_cons_of_neg (by simp [hx])]
    · simp only [List.orderedInsert, if_neg hr]
      cases hpy : p y
      · rw [List.filter_cons_of_neg (by simp [hpy]), ih,
          List.filter_cons_of_neg (by simp [hpy])]
      · rw [List.filter_cons_of_pos (by simp [hpy]), ih,
          List.filter_cons_of_pos (by simp [hpy])]

/-- Stability of `insertionSort`: for a predicate `p` closed under the sort
relation, the `p`-elements come out in their original order. -/
theorem filter_insertionSort (r : α → α → Prop) [DecidableRel r]
    (p : α → Bool) (h : ∀ x y, p x = true → p y = true → r x y) :
    ∀ l : List α, (List.insertionSort r l).filter p = l.filter p := by
  intro l
  induction l with
  | nil => rfl
  | cons x xs ih =>
    show (List.orderedInsert r x (List.insertionSort r xs)).filter p = _
    cases hp : p x
    · rw [filter_orderedInsert_neg r p x hp, ih,
        List.filter_cons_of_neg (by simp [hp])]
    · rw [filter_orderedInsert_pos r p x hp (fun y hy => h x y hp hy), ih,
        List.filter_cons_of_pos hp]

/-- The lot comparator `(a, b) => b.currentValue - a.currentValue`:
`a` sorts before `b` when `a`'s value is at least `b`'s. -/
def lotBefore (a b : Lot) : Prop := b.currentValue ≤ a.currentValue

instance : DecidableRel lotBefore := fun a b =>
  inferInstanceAs (Decidable (b.currentValue ≤ a.currentValue))

instance : IsTotal Lot lotBefore := ⟨fun a b => le_total b.currentValue a.currentValue⟩

instance : IsTrans Lot lotBefore := ⟨fun _ _ _ hab hbc => le_trans hbc hab⟩

/-- `lotsForAuction.sort((a, b) => b.currentValue - a.currentValue)` (line 339). -/
def sortLots (lots : List Lot) : List Lot := List.insertionSort lotBefore lots

/-- The bidder comparator `(a, b) => b.wealth - a.wealth`. -/
def agentBefore (a b : PoolAgent) : Prop := b.wealth ≤ a.wealth

instance : DecidableRel agentBefore := fun a b =>
  inferInstanceAs (Decidable (b.wealth ≤ a.wealth))

instance : IsTotal PoolAgent agentBefore := ⟨fun a b => le_total b.wealth a.wealth⟩

instance : IsTrans PoolAgent agentBefore := ⟨fun _ _ _ hab hbc => le_trans hbc hab⟩

/-- `allAgents.sort((a, b) => b.wealth - a.wealth)` (line 342). -/
def sortAgents (agents : List PoolAgent) : List PoolAgent :=
  List.insertionSort agentBefore agents

theorem sortLots_sorted (lots : List Lot) : List.Sorted lotBefore (sortLots lots) :=
  List.sorted_insertionSort lotBefore lots

theorem sortLots_perm (lots : List Lot) : List.Perm (sortLots lots) lots :=
  List.perm_insertionSort lotBefore lots

theorem sortLots_stable (lots : List Lot) (v : ℚ) :
    (sortLots lots).filter (fun l => l.currentValue = v)
      = lots.filter (fun l => l.currentValue = v) := by
  apply filter_insertionSort
  intro x y hx hy
  simp only [decide_eq_true_eq] at hx hy
  show y.currentValue ≤ x.currentValue
  rw [hx, hy]

theorem sortAgents_sorted (agents : List PoolAgent) :
    List.Sorted agentBefore (sortAgents agents) :=
  List.sorted_insertionSort agentBefore agents

theorem sortAgents_perm (agents : List PoolAgent) :
    List.Perm (sortAgents agents) agents :=
  List.perm_insertionSort agentBefore agents

theorem sortAgents_stable (agents : List PoolAgent) (w : Int) :
    (sortAgents agents).filter (fun a => a.wealth = w)
      = agents.filter (fun a => a.wealth = w) := by
  apply filter_insertionSort
  intro x y hx hy
  simp only [decide_eq_true_eq] at hx hy
  show y.wealth ≤ x.wealth
  rw [hx, hy]

/-! ### The round-processing pipeline (`processRoundRef.current`, lines 194–574) -/

/-- Append a history event to the parcel at `i`
(`workingParcels[i].history.push(…)`). -/
def pushEvent (ps : List Parcel) (i : Nat) (e : HEvent) : List Parcel :=
  modifyAt ps i (fun p => { p with history := p.history ++ [e] })

/-- STEP 1 / STEP 8: recompute every parcel's community score against the
current array (`updateAllCommunityScores`, lines 132–137 / 222–225 / 545–548). -/
def updateAllCommunityScores (ps : List Parcel) : List Parcel :=
  mapIdxL (fun i p => { p with communityScore := calculateCommunityScore i ps }) ps

/-- STEP 2 (lines 231–271): clear expired leases, producing the updated
parcels, the expired-lease lots (in parcel-index order) and the displaced
defenders (in the same order). -/
def scanExpired (cfg : Config) (currentRound : Int) (ps0 : List Parcel) :
    List Parcel × List Lot × List PoolAgent :=
  (List.range ps0.length).foldl
    (fun acc i =>
      let ps := acc.1
      let p := ps.getD i default
      match p.occupant with
      | some o =>
        if o.leaseStart + o.leaseLength ≤ currentRound then
          let currentValue := p.environmentScore * cfg.environmentMultiplier
            + p.communityScore * cfg.communityMultiplier
          let p' := { p with
            history := p.history ++ [HEvent.leaseExpired currentRound o.id o.wealth
              o.leaseStart o.leaseLength p.leasePrice currentValue],
            occupant := none, leasePrice := none }
          (modifyAt ps i (fun _ => p'),
           acc.2.1 ++ [⟨i, currentValue, none, some o⟩],
           acc.2.2 ++ [⟨o.id, o.wealth, o.roundEntered, none⟩])
        else acc
      | none => acc)
    (ps0, [], [])

/-- Lines 274–290: add every still-vacant parcel not already in the lot pool,
with vacancy decay applied to its current value when enabled. -/
def scanVacant (cfg : Config) (ps : List Parcel) (lots0 : List Lot) : List Lot :=
  (List.range ps.length).foldl
    (fun lots i =>
      let p := ps.getD i default
      if p.occupant.isNone ∧ (lots.find? (fun l => l.index = i)).isNone then
        let envValue := p.environmentScore * cfg.environmentMultiplier
        let baseValue := envValue + p.communityScore * cfg.communityMultiplier
        let currentValue :=
          if cfg.vacancyDecay ∧ 0 < p.roundsVacant then
            max envValue (baseValue - (p.roundsVacant : ℚ) * (1 / 2))
          else baseValue
        lots ++ [⟨i, currentValue, some baseValue, none⟩]
      else lots)
    lots0

/-- Lines 298–307: ids of agents housed under a still-active lease. -/
def alreadyHousedIds (currentRound : Int) (ps : List Parcel) : List String :=
  ps.foldl
    (fun acc p =>
      match p.occupant with
      | some o => if currentRound < o.leaseStart + o.leaseLength then acc ++ [o.id] else acc
      | none => acc)
    []

/-- Immigrant wealth: `Math.floor(Math.random() * maxWealth) + 1`. -/
def immigrantWealth (cfg : Config) (roll : Nat) : Int :=
  ((roll % cfg.maxWealth) + 1 : Nat)

/-- STEP 4 (lines 292–336): assemble the bidder pool — defenders first, then
carried-over unhoused, then fresh immigrants — deduplicated by id, excluding
active leaseholders. -/
def assemblePool (cfg : Config) (ent : Entropy) (currentRound : Int)
    (expiredAgents carriedUnhoused : List PoolAgent) (alreadyHoused : List String) :
    List PoolAgent :=
  let step : AgentSource → (List PoolAgent × List String) → PoolAgent →
      (List PoolAgent × List String) := fun src acc a =>
    if acc.2.contains a.id ∨ alreadyHoused.contains a.id then acc
    else (acc.1 ++ [{ a with source := some src }], acc.2 ++ [a.id])
  let acc1 := expiredAgents.foldl (step .expiredLease) ([], [])
  let acc2 := carriedUnhoused.foldl (step .unhousedCarry) acc1
  let acc3 := (List.range cfg.immigrationRate).foldl
    (fun acc i =>
      let uniqueId := ent.immigrantId i
      (acc.1 ++ [⟨uniqueId, immigrantWealth cfg (ent.wealthRoll i), currentRound,
         some .newImmigrant⟩],
       acc.2 ++ [uniqueId]))
    acc2
  acc3.1

/-- Lines 351–354: a defender who already won another lot this round is
demoted and the lot treated as vacant. -/
def demotedDefender (placed : List String) (lot : Lot) : Option Occupant :=
  match lot.defender with
  | some d => if placed.contains d.id then none else some d
  | none => none

/-- A defender used directly as winner keeps no pool metadata (line 421/439/451,
the `defender` fallback of `defenderInPool || defender`). -/
def occupantAsBidder (o : Occupant) : PoolAgent := ⟨o.id, o.wealth, o.roundEntered, none⟩

/-- Lines 356–362: the defender's entry in the pool, if any and not placed. -/
def defenderInPool (pool : List PoolAgent) (placed : List String) (lot : Lot) :
    Option PoolAgent :=
  match demotedDefender placed lot with
  | some d =>
    match pool.find? (fun a => a.id = d.id) with
    | some a => if placed.contains a.id then none else some a
    | none => none
  | none => none

/-- Lines 364–367: unplaced bidders who can afford the lot. -/
def eligibleOf (pool : List PoolAgent) (placed : List String) (lot : Lot) :
    List PoolAgent :=
  pool.filter (fun a => !placed.contains a.id && ((a.wealth : ℚ) ≥ lot.currentValue))

/-- Result of one resolved auction. -/
structure AuctionRes where
  winner : PoolAgent
  leasePrice : ℚ
  wasContested : Bool
  detail : AuctionDetail
deriving DecidableEq, Repr

/-- Lines 369–459: the five-outcome auction resolution for one lot; `none`
when no bidder can afford it. -/
def auctionOutcome (pool : List PoolAgent) (placed : List String) (lot : Lot) :
    Option AuctionRes :=
  let defender := demotedDefender placed lot
  let dip := defenderInPool pool placed lot
  let eligibleAgents := eligibleOf pool placed lot
  match eligibleAgents with
  | [] => none
  | e0 :: rest =>
    match defender with
    | none =>
      match rest with
      | [] => some ⟨e0, lot.currentValue, false, .vacantClaim⟩
      | e1 :: _ =>
        some ⟨e0, max lot.currentValue (e1.wealth : ℚ), true,
          .contestedVacant e1.id e1.wealth⟩
    | some d =>
      match (e0 :: rest).find? (fun a => a.id ≠ d.id) with
      | none =>
        some ⟨dip.getD (occupantAsBidder d), lot.currentValue, false,
          .uncontestedRenewal⟩
      | some challenger =>
        if d.wealth < challenger.wealth then
          some ⟨challenger, max lot.currentValue ((d.wealth : ℚ) + 1), true,
            .challengerWins d.id d.wealth (max lot.currentValue ((d.wealth : ℚ) + 1))⟩
        else if challenger.wealth = d.wealth then
          some ⟨dip.getD (occupantAsBidder d), (challenger.wealth : ℚ), true,
            .defenderWinsTie challenger.id challenger.wealth (challenger.wealth : ℚ)⟩
        else
          some ⟨dip.getD (occupantAsBidder d),
            max lot.currentValue ((challenger.wealth : ℚ) + 1), true,
            .defenderWins challenger.id challenger.wealth
              (max lot.currentValue ((challenger.wealth : ℚ) + 1))⟩

/-- A fresh lease length: `Math.floor(Math.random() * (max - min + 1)) + min`. -/
def leaseLengthDraw (cfg : Config) (roll : Nat) : Int :=
  cfg.minLeaseLength + (roll : Int) % (cfg.maxLeaseLength - cfg.minLeaseLength + 1)

/-- Working state of the auction loop. -/
structure AuctionState where
  parcels : List Parcel
  placed : List String
  draws : Nat
deriving Repr

/-- STEP 5 body (lines 348–512): resolve one lot, record history, clear the
winner from any other parcel (the duplicate-agent safeguard, lines 486–497)
and install the new lease. -/
def runLot (cfg : Config) (ent : Entropy) (currentRound : Int)
    (pool : List PoolAgent) (s : AuctionState) (lot : Lot) : AuctionState :=
  match auctionOutcome pool s.placed lot with
  | none =>
    match demotedDefender s.placed lot with
    | some d =>
      { s with parcels := (pushEvent s.parcels lot.index
          (.pricedOut currentRound d.id d.wealth lot.currentValue)) }
    | none => s
  | some res =>
    let leaseLength := leaseLengthDraw cfg (ent.leaseRoll s.draws)
    let ps1 := pushEvent s.parcels lot.index
      (.auctionSettled currentRound res.wasContested res.winner.id res.winner.wealth
        res.winner.source leaseLength res.leasePrice lot.currentValue res.detail)
    let ps2 := mapIdxL (fun j p =>
      if j ≠ lot.index ∧ (p.occupant.map Occupant.id) = some res.winner.id then
        { p with occupant := none, leasePrice := none }
      else p) ps1
    let ps3 := modifyAt ps2 lot.index (fun p =>
      { p with
        occupant := some ⟨res.winner.id, res.winner.wealth, res.winner.roundEntered,
          currentRound, leaseLength⟩,
        leasePrice := some res.leasePrice,
        roundsVacant := 0,
        justOccupied := true })
    { parcels := ps3, placed := s.placed ++ [res.winner.id], draws := s.draws + 1 }

/-- STEP 6 (lines 514–522): unplaced agents become unhoused (deduplicated,
pool metadata stripped). -/
def computeUnhoused (pool : List PoolAgent) (placed : List String) : List PoolAgent :=
  (pool.foldl
    (fun acc a =>
      if !placed.contains a.id ∧ !acc.2.contains a.id then
        (acc.1 ++ [{ a with source := none }], acc.2 ++ [a.id])
      else acc)
    (([] : List PoolAgent), ([] : List String))).1

/-- STEP 7 (lines 524–542): bump vacancy counters of parcels that stayed vacant
and clear the `justOccupied` flag. -/
def updateVacancy (ps : List Parcel) : List Parcel :=
  ps.map (fun p =>
    let p1 :=
      if p.occupant.isNone ∧ !p.justOccupied then
        { p with roundsVacant := p.roundsVacant + 1,
                 totalRoundsVacant := p.totalRoundsVacant + 1 }
      else p
    if p.justOccupied then { p1 with justOccupied := false } else p1)

/-- FINAL SAFETY CHECK (lines 550–568): drop from the unhoused list anyone who
is actually housed, and deduplicate by id. -/
def finalizeUnhoused (ps : List Parcel) (newUnhoused : List PoolAgent) :
    List PoolAgent :=
  let housedIds := ps.foldl
    (fun acc p =>
      match p.occupant with
      | some o => if o.id ≠ "" then acc ++ [o.id] else acc
      | none => acc)
    []
  (newUnhoused.foldl
    (fun acc a =>
      if !housedIds.contains a.id ∧ !acc.2.contains a.id then
        (acc.1 ++ [a], acc.2 ++ [a.id])
      else acc)
    (([] : List PoolAgent), ([] : List String))).1

/-- Everything up to the auction loop, bundled so that the lot order and the
bidder pool can be stated on their own. -/
structure PreAuction where
  currentRound : Int
  parcels : List Parcel
  lots : List Lot
  defenders : List PoolAgent
  housedIds : List String

def preAuction (cfg : Config) (st : SimState) : PreAuction :=
  let currentRound := st.round + 1
  let ps1 := updateAllCommunityScores st.parcels
  let scanned := scanExpired cfg currentRound ps1
  let lots := scanVacant cfg scanned.1 scanned.2.1
  { currentRound := currentRound, parcels := scanned.1, lots := lots,
    defenders := scanned.2.2, housedIds := alreadyHousedIds currentRound scanned.1 }

/-- The sequence of lots as the auction loop visits them. -/
def roundLots (cfg : Config) (st : SimState) : List Lot :=
  sortLots (preAuction cfg st).lots

/-- The ranked bidder pool as the auction loop consults it. -/
def roundPool (cfg : Config) (ent : Entropy) (st : SimState) : List PoolAgent :=
  let pre := preAuction cfg st
  sortAgents (assemblePool cfg ent pre.currentRound pre.defenders st.unhoused pre.housedIds)

/-- One full round (`processRoundRef.current`, minus the history-buffer commit,
which lives in `HistState`). -/
def processRound (cfg : Config) (ent : Entropy) (st : SimState) : SimState :=
  let pre := preAuction cfg st
  let pool := roundPool cfg ent st
  let auctioned := (roundLots cfg st).foldl
    (runLot cfg ent pre.currentRound pool) ⟨pre.parcels, [], 0⟩
  let newUnhoused := computeUnhoused pool auctioned.placed
  let ps3 := updateVacancy auctioned.parcels
  let ps4 := updateAllCommunityScores ps3
  { round := pre.currentRound, parcels := ps4,
    unhoused := finalizeUnhoused ps4 newUnhoused }

/-- `initializeParcels` (lines 70–89). -/
def initializeParcels : List Parcel :=
  (List.range GRID_SIZE).flatMap fun row =>
    (List.range GRID_SIZE).map fun col =>
      { id := row * GRID_SIZE + col, row := (row : Int), col := (col : Int),
        environmentScore := (col : ℚ) + 1, communityScore := 0,
        occupant := none, leasePrice := none,
        roundsVacant := 0, totalRoundsVacant := 0, history := [],
        justOccupied := false }

/-- The round-0 state produced by reset / mount. -/
def initState : SimState := ⟨0, initializeParcels, []⟩

/-! ### HistoryBuffer (`handleStepBack` / `handleStepForward`, lines 706–753) -/

/-- A stored time-travel snapshot `{ round, parcels, unhoused }`. -/
structure Snapshot where
  round : Int
  parcels : List Parcel
  unhoused : List PoolAgent
deriving DecidableEq, Repr

instance : Inhabited Snapshot := ⟨⟨0, [], []⟩⟩

/-- The UI-level state: the live view plus the history sequence and cursor
(`historyIndex = -1` means "at the latest state"). -/
structure HistState where
  round : Int
  parcels : List Parcel
  unhoused : List PoolAgent
  history : List Snapshot
  historyIndex : Int
deriving DecidableEq, Repr

/-- The visible simulation state: round number, all parcels, unhoused pool. -/
def view (s : HistState) : Int × List Parcel × List PoolAgent :=
  (s.round, s.parcels, s.unhoused)

def viewSnap (sn : Snapshot) : Int × List Parcel × List PoolAgent :=
  (sn.round, sn.parcels, sn.unhoused)

/-- `handleStepBack` (lines 706–734). -/
def handleStepBack (s : HistState) : HistState :=
  if s.history.length = 0 then s
  else if s.historyIndex = -1 then
    let currentState : Snapshot := ⟨s.round, s.parcels, s.unhoused⟩
    let targetIndex : Int := (s.history.length : Int) - 1
    let targetState := s.history.getD targetIndex.toNat default
    { round := targetState.round, parcels := targetState.parcels,
      unhoused := targetState.unhoused,
      history := s.history ++ [currentState], historyIndex := targetIndex }
  else if 0 < s.historyIndex then
    let targetIndex := s.historyIndex - 1
    let targetState := s.history.getD targetIndex.toNat default
    { s with
        round := targetState.round
        parcels := targetState.parcels
        unhoused := targetState.unhoused
        historyIndex := targetIndex }
  else s

/-- `handleStepForward` (lines 737–753).  When the cursor is not at the head it
replays the next stored snapshot; at the head it advances the live simulation
(`advance` stands for the round commit, which is irrelevant to the replay
branch). -/
def handleStepForward (advance : HistState → HistState) (s : HistState) : HistState :=
  if 0 ≤ s.historyIndex ∧ s.historyIndex < (s.history.length : Int) - 1 then
    let targetIndex := s.historyIndex + 1
    let targetState := s.history.getD targetIndex.toNat default
    { s with
        round := targetState.round
        parcels := targetState.parcels
        unhoused := targetState.unhoused
        historyIndex := targetIndex }
  else
    advance s

/-! ### Configuration surface (state hooks lines 11–17, sliders lines 1326–1352,
scenario presets lines 30–67) -/

/-- The initial `useState` configuration values. -/
def defaultConfig : Config := ⟨5, 1, 10, 26, false, 1, 1⟩

/-- The immigration slider (`min="1" max="25"`). -/
def onImmigrationChange (c : Config) (val : Nat) : Config :=
  { c with immigrationRate := val }

/-- The min-lease slider (`min="1" max="25"`): sets `minLeaseLength` and drags
`maxLeaseLength` up when the new minimum passes it. -/
def onMinLeaseChange (c : Config) (val : Int) : Config :=
  { c with minLeaseLength := val,
           maxLeaseLength := (if c.maxLeaseLength < val then val else c.maxLeaseLength) }

/-- The max-lease slider (`min="1" max="25"`): sets `maxLeaseLength` and drags
`minLeaseLength` down when the new maximum passes it. -/
def onMaxLeaseChange (c : Config) (val : Int) : Config :=
  { c with maxLeaseLength := val,
           minLeaseLength := (if val < c.minLeaseLength then val else c.minLeaseLength) }

/-- The max-wealth slider (`min="20" max="50"`). -/
def onMaxWealthChange (c : Config) (val : Nat) : Config :=
  { c with maxWealth := val }

/-- The vacancy-decay checkbox. -/
def onVacancyDecayToggle (c : Config) (b : Bool) : Config :=
  { c with vacancyDecay := b }

/-- The environment-weight slider (`min="0" max="2" step="0.1"`). -/
def onEnvironmentChange (c : Config) (v : ℚ) : Config :=
  { c with environmentMultiplier := v }

/-- The community-weight slider (`min="0" max="2" step="0.1"`). -/
def onCommunityChange (c : Config) (v : ℚ) : Config :=
  { c with communityMultiplier := v }

/-- The six scenario presets (`scenarios`, lines 30–67), as applied by
`applyScenario`. -/
def scenarios : List Config :=
  [⟨10, 5, 15, 26, true, 1, 1⟩,
   ⟨10, 1, 25, 50, false, 2, 2⟩,
   ⟨5, 15, 25, 25, true, 1, 1⟩,
   ⟨15, 1, 3, 40, false, 1.5, 1.5⟩,
   ⟨10, 1, 10, 30, true, 1.8, 0.2⟩,
   ⟨3, 5, 15, 20, true, 0.5, 2⟩]

/-- A well-formed configuration: positive immigration count, ordered positive
lease bounds, positive wealth ceiling.  (`immigrationRate` and `maxWealth`
are counts, so negativity is already excluded by the embedding's types.) -/
abbrev ValidConfig (c : Config) : Prop :=
  0 < c.immigrationRate ∧ 1 ≤ c.minLeaseLength
    ∧ c.minLeaseLength ≤ c.maxLeaseLength ∧ 0 < c.maxWealth

/-! ### Concrete fixtures used by the claim theorems -/

/-- A housed agent used in concrete grids. -/
def sampleOccupant : Occupant := ⟨"occupant-1", 5, 0, 0, 5⟩

/-- The empty 10×10 grid with the 8 immediate neighbors of parcel 44
(row 4, col 4) occupied and nothing else. -/
def ringGrid : List Parcel :=
  mapIdxL (fun i p =>
    if i = 33 ∨ i = 34 ∨ i = 35 ∨ i = 43 ∨ i = 45 ∨ i = 53 ∨ i = 54 ∨ i = 55 then
      { p with occupant := some sampleOccupant, leasePrice := some 5 }
    else p) initializeParcels

/-- Config for the lot-ordering counterexample: community weight 0 keeps every
lot's current value equal to its (column-determined) environment value. -/
def cex2Cfg : Config := ⟨0, 1, 1, 26, false, 1, 0⟩

/-- Round-0 grid state whose parcel 10 (row 1, col 0) holds a lease expiring
this round, while parcel 0 (row 0, col 0) is vacant: both lots get current
value 1. -/
def cex2State : SimState :=
  ⟨0, mapIdxL (fun i p =>
      if i = 10 then { p with occupant := some ⟨"A", 5, 0, 0, 1⟩, leasePrice := some 1 }
      else p) initializeParcels, []⟩

/-- Ambient randomness giving every immigrant the same wealth roll `w`. -/
def c3Entropy (w : Nat) : Entropy :=
  ⟨fun i => "imm-" ++ toString i, fun _ => w, fun _ => 0⟩

/-- One immigrant per round, weights 1/1, no decay, lease length locked to 1. -/
def cfgC3 : Config := ⟨1, 1, 1, 26, false, 1, 1⟩

/-- Config for the double-occupancy run: no immigration, community weight 0. -/
def cfgC4 : Config := ⟨0, 1, 1, 26, false, 1, 0⟩

/-- A corrupted state: identity `"X"` occupies parcel 9 (lease expiring this
round) and parcel 19 (active lease) simultaneously; `"Y"` (equal wealth) is
unhoused and will challenge the expiring lot. -/
def corruptState : SimState :=
  ⟨0, mapIdxL (fun i p =>
      if i = 9 then { p with occupant := some ⟨"X", 10, 0, 0, 1⟩, leasePrice := some 10 }
      else if i = 19 then { p with occupant := some ⟨"X", 10, 0, 0, 5⟩, leasePrice := some 10 }
      else p) initializeParcels, [⟨"Y", 10, 0, none⟩]⟩

/-! ### C6: community-score recomputation -/

/-- C6: for every parcel and occupancy configuration the recomputed community
score equals the spec's sum — `+1` per occupied immediate neighbor
(row/col ±1, excluding self), `+0.5` per occupied second-ring cell (offset
magnitude 2 in either axis, excluding the inner ring), out-of-grid cells
contributing nothing; in particular a parcel with no occupied neighbors
scores 0 and one with all 8 inner neighbors occupied and no outer-ring
occupancy scores 8. -/
theorem georgist_C6 :
    (∀ (parcelsState : List Parcel) (parcelIndex : Nat),
        calculateCommunityScore parcelIndex parcelsState
          = specCommunityScore parcelIndex parcelsState)
      ∧ calculateCommunityScore 44 ringGrid = 8
      ∧ calculateCommunityScore 44 initializeParcels = 0 :=
  ⟨fun ps i => calculateCommunityScore_eq_spec i ps,
   by with_unfolding_all rfl,
   by with_unfolding_all rfl⟩

/-! ### C10: community-score bounds -/

/-- C10: for every parcel and occupancy configuration the community score lies
in `[0, 16]` — at most 8 from the inner ring plus at most `16 × ½` from the
second ring. -/
theorem georgist_C10 :
    ∀ (parcelsState : List Parcel) (parcelIndex : Nat),
      0 ≤ calculateCommunityScore parcelIndex parcelsState
        ∧ calculateCommunityScore parcelIndex parcelsState ≤ 16 :=
  fun ps i => calculateCommunityScore_bounds i ps

/-! ### C2: auction ordering -/

/-- C2 (amended): each round's lots are auctioned in descending current-value
order and the bidder pool is ranked in descending wealth order; both sorts are
stable, so ties keep their pre-sort enumeration order (expired-lease lots by
ascending parcel index followed by vacant lots by ascending parcel index;
defenders, then carried-over unhoused, then immigrants) — not parcel-index /
identity order. -/
theorem georgist_C2_amended :
    ∀ (cfg : Config) (ent : Entropy) (st : SimState),
      List.Sorted lotBefore (roundLots cfg st)
      ∧ List.Perm (roundLots cfg st) (preAuction cfg st).lots
      ∧ (∀ v : ℚ, (roundLots cfg st).filter (fun l => l.currentValue = v)
            = (preAuction cfg st).lots.filter (fun l => l.currentValue = v))
      ∧ List.Sorted agentBefore (roundPool cfg ent st)
      ∧ List.Perm (roundPool cfg ent st)
          (assemblePool cfg ent (preAuction cfg st).currentRound
            (preAuction cfg st).defenders st.unhoused (preAuction cfg st).housedIds)
      ∧ (∀ w : Int, (roundPool cfg ent st).filter (fun a => a.wealth = w)
            = (assemblePool cfg ent (preAuction cfg st).currentRound
                (preAuction cfg st).defenders st.unhoused
                (preAuction cfg st).housedIds).filter (fun a => a.wealth = w)) :=
  fun _ _ _ =>
    ⟨sortLots_sorted _, sortLots_perm _, fun v => sortLots_stable _ v,
     sortAgents_sorted _, sortAgents_perm _, fun w => sortAgents_stable _ w⟩

/-- C2 counterexample: in `cex2State` the expired-lease lot of parcel 10 and
the vacant lot of parcel 0 both carry current value 1, yet the auction order
visits parcel 10 (positions 90/91 of the 99-lot round) before parcel 0 —
equal-value ties are not broken by ascending parcel index. -/
theorem georgist_C2_counterexample :
    ((roundLots cex2Cfg cex2State).getD 90 default).currentValue
        = ((roundLots cex2Cfg cex2State).getD 91 default).currentValue
      ∧ ((roundLots cex2Cfg cex2State).getD 90 default).index = 10
      ∧ ((roundLots cex2Cfg cex2State).getD 91 default).index = 0 := by
  with_unfolding_all decide

/-! ### C5: history time travel -/

/-- C5 (amended): from any coherent history state with at least one stored
snapshot, stepping backward and then forward restores the visible state
(round, parcels, unhoused) bit-identically, provided the backward step
actually moved the cursor (cursor not already at the oldest snapshot); and a
backward step at the oldest snapshot is a no-op. -/
theorem georgist_C5_amended :
    (∀ (adv : HistState → HistState) (s : HistState),
        s.history ≠ []
        → s.historyIndex ≠ 0
        → -1 ≤ s.historyIndex
        → s.historyIndex < (s.history.length : Int)
        → (0 ≤ s.historyIndex
            → view s = viewSnap (s.history.getD s.historyIndex.toNat default))
        → view (handleStepForward adv (handleStepBack s)) = view s)
    ∧ (∀ s : HistState, s.historyIndex = 0 → handleStepBack s = s) := by
  constructor
  · intro adv s hne hnz hge hlt hcoh
    have hl : ¬ s.history.length = 0 := by
      simpa using hne
    rcases lt_or_ge s.historyIndex 0 with hneg | hpos
    · -- cursor at the live head (`historyIndex = -1`)
      have h1 : s.historyIndex = -1 := by omega
      have hn1 : 1 ≤ s.history.length := Nat.pos_of_ne_zero hl
      simp only [handleStepBack, if_neg hl, if_pos h1]
      simp only [handleStepForward]
      rw [if_pos (by simp; omega)]
      have htn : ((s.history.length : Int) - 1 + 1).toNat = s.history.length := by omega
      simp only [htn, List.length_append]
      rw [List.getD, List.get?_concat_length]
      rfl
    · -- cursor strictly inside history (`historyIndex ≥ 1`)
      have h1 : 1 ≤ s.historyIndex := by omega
      have hm1 : ¬ s.historyIndex = -1 := by omega
      have hcoh2 := hcoh (by omega)
      simp only [handleStepBack, if_neg hl, if_neg hm1,
        if_pos (show 0 < s.historyIndex by omega)]
      simp only [handleStepForward, view, viewSnap] at hcoh2 ⊢
      split
      · have htn : (s.historyIndex - 1 + 1).toNat = s.historyIndex.toNat := by omega
        simp only [htn]
        exact hcoh2.symm
      · rename_i hcond
        exfalso
        apply hcond
        refine ⟨?_, ?_⟩ <;> simp <;> omega
  · intro s h0
    have hm1 : ¬ s.historyIndex = -1 := by omega
    have hpos : ¬ 0 < s.historyIndex := by omega
    by_cases hl : s.history.length = 0
    · simp [handleStepBack, hl]
    · simp [handleStepBack, hl, hm1, hpos]

/-- Fixture: a live state with one stored snapshot, cursor at the head. -/
def c5WitnessState : HistState := ⟨1, [], [], [⟨0, [], []⟩], -1⟩

theorem georgist_C5_witness :
    view (handleStepForward id (handleStepBack c5WitnessState)) = view c5WitnessState
      ∧ handleStepBack ⟨1, [], [], [⟨0, [], []⟩], 0⟩ = ⟨1, [], [], [⟨0, [], []⟩], 0⟩ :=
  ⟨georgist_C5_amended.1 id c5WitnessState (by decide) (by decide) (by decide)
      (by decide) (fun h => absurd h (by decide)),
   georgist_C5_amended.2 ⟨1, [], [], [⟨0, [], []⟩], 0⟩ rfl⟩

/-- C5 counterexample: with the cursor on the oldest of two snapshots, the
backward step is a no-op but the forward step still replays the newer
snapshot, so back-then-forward does not restore the pre-back state even
though no round is committed. -/
def cex5 : HistState := ⟨0, [], [], [⟨0, [], []⟩, ⟨1, [], []⟩], 0⟩

theorem georgist_C5_counterexample :
    view (handleStepForward id (handleStepBack cex5)) ≠ view cex5 := by decide

/-! ### C8: configuration validation -/

/-- C8 (amended): the configuration surface never rejects an input — it clamps
instead: the lease sliders drag the other bound along so
`minLeaseLength ≤ maxLeaseLength` is maintained, and the slider ranges
(immigration 1–25, lease 1–25, wealth 20–50) plus the six presets keep every
count positive and `maxWealth` positive, so no round step executes with
`minLeaseLength > maxLeaseLength`, a negative count, or a non-positive
`maxWealth`. -/
theorem georgist_C8_amended :
    ValidConfig defaultConfig
    ∧ (∀ c ∈ scenarios, ValidConfig c)
    ∧ (∀ (c : Config) (val : Nat), ValidConfig c → 1 ≤ val → val ≤ 25 →
        ValidConfig (onImmigrationChange c val))
    ∧ (∀ (c : Config) (val : Int), ValidConfig c → 1 ≤ val → val ≤ 25 →
        ValidConfig (onMinLeaseChange c val))
    ∧ (∀ (c : Config) (val : Int), ValidConfig c → 1 ≤ val → val ≤ 25 →
        ValidConfig (onMaxLeaseChange c val))
    ∧ (∀ (c : Config) (val : Nat), ValidConfig c → 20 ≤ val → val ≤ 50 →
        ValidConfig (onMaxWealthChange c val))
    ∧ (∀ (c : Config) (b : Bool), ValidConfig c → ValidConfig (onVacancyDecayToggle c b))
    ∧ (∀ (c : Config) (v : ℚ), ValidConfig c → ValidConfig (onEnvironmentChange c v))
    ∧ (∀ (c : Config) (v : ℚ), ValidConfig c → ValidConfig (onCommunityChange c v)) := by
  refine ⟨by decide, by decide, ?_, ?_, ?_, ?_, ?_, ?_, ?_⟩
  · intro c val hc h1 _
    exact ⟨h1, hc.2.1, hc.2.2.1, hc.2.2.2⟩
  · intro c val hc h1 _
    refine ⟨hc.1, h1, ?_, hc.2.2.2⟩
    show val ≤ (if c.maxLeaseLength < val then val else c.maxLeaseLength)
    split <;> omega
  · intro c val hc h1 _
    refine ⟨hc.1, ?_, ?_, hc.2.2.2⟩
    · show 1 ≤ (if val < c.minLeaseLength then val else c.minLeaseLength)
      have := hc.2.1
      split <;> omega
    · show (if val < c.minLeaseLength then val else c.minLeaseLength) ≤ val
      split <;> omega
  · intro c val hc h20 _
    exact ⟨hc.1, hc.2.1, hc.2.2.1, show (0 : ℕ) < val by omega⟩
  · intro c b hc; exact hc
  · intro c v hc; exact hc
  · intro c v hc; exact hc

theorem georgist_C8_witness :
    ValidConfig (onMinLeaseChange defaultConfig 20)
      ∧ ValidConfig (onMaxWealthChange defaultConfig 20) :=
  ⟨georgist_C8_amended.2.2.2.1 defaultConfig 20 (by decide) (by decide) (by decide),
   georgist_C8_amended.2.2.2.2.2.1 defaultConfig 20 (by decide) (by decide) (by decide)⟩

/-- C8 counterexample: a min-lease slider request of 20 against the default
configuration (min 1, max 10) asks for `minLeaseLength > maxLeaseLength`; the
handler does not reject it — it accepts the value and raises
`maxLeaseLength` to 20. -/
theorem georgist_C8_counterexample :
    onMinLeaseChange defaultConfig 20 ≠ defaultConfig
      ∧ defaultConfig.maxLeaseLength < (onMinLeaseChange defaultConfig 20).minLeaseLength
      ∧ (onMinLeaseChange defaultConfig 20).maxLeaseLength = 20 := by
  with_unfolding_all decide

/-! ### Auction-engine facts -/

theorem eligibleOf_sorted {pool : List PoolAgent} (placed : List String) (lot : Lot)
    (hsorted : List.Sorted agentBefore pool) :
    List.Sorted agentBefore (eligibleOf pool placed lot) :=
  List.Pairwise.sublist (List.filter_sublist pool) hsorted

theorem mem_eligibleOf {pool : List PoolAgent} {placed : List String} {lot : Lot}
    {a : PoolAgent} (h : a ∈ eligibleOf pool placed lot) :
    a ∈ pool ∧ placed.contains a.id = false ∧ lot.currentValue ≤ (a.wealth : ℚ) := by
  unfold eligibleOf at h
  rw [List.mem_filter] at h
  refine ⟨h.1, ?_, ?_⟩
  · have := h.2
    cases hp : placed.contains a.id
    · rfl
    · rw [hp] at this; simp at this
  · have := h.2
    cases hp : placed.contains a.id
    · rw [hp] at this
      simp only [Bool.not_false, Bool.true_and, decide_eq_true_eq, ge_iff_le] at this
      exact this
    · rw [hp] at this; simp at this

theorem sorted_head_max {e : PoolAgent} {rest : List PoolAgent}
    (h : List.Sorted agentBefore (e :: rest)) :
    ∀ a ∈ e :: rest, a.wealth ≤ e.wealth := by
  intro a ha
  rcases List.mem_cons.mp ha with rfl | ha
  · exact le_refl _
  · exact List.rel_of_sorted_cons h a ha

/-- `find?` on a wealth-sorted pool returns the wealthiest element satisfying
the predicate. -/
theorem find?_sorted_max {l : List PoolAgent} {p : PoolAgent → Bool} {c : PoolAgent}
    (hs : List.Sorted agentBefore l) (h : l.find? p = some c) :
    c ∈ l ∧ p c = true ∧ ∀ a ∈ l, p a = true → a.wealth ≤ c.wealth := by
  induction l with
  | nil => cases h
  | cons x xs ih =>
    cases hpx : p x with
    | true =>
      rw [List.find?_cons_of_pos _ hpx] at h
      obtain rfl : x = c := by injection h
      refine ⟨List.mem_cons_self _ _, hpx, ?_⟩
      intro a ha _
      exact sorted_head_max hs a ha
    | false =>
      rw [List.find?_cons_of_neg _ (by simp [hpx])] at h
      obtain ⟨hmem, hpc, hmax⟩ := ih hs.of_cons h
      refine ⟨List.mem_cons_of_mem _ hmem, hpc, ?_⟩
      intro a ha hpa
      rcases List.mem_cons.mp ha with rfl | ha
      · rw [hpa] at hpx; cases hpx
      · exact hmax a ha hpa

theorem demotedDefender_spec {placed : List String} {lot : Lot} {d : Occupant}
    (h : demotedDefender placed lot = some d) :
    lot.defender = some d ∧ placed.contains d.id = false := by
  cases hld : lot.defender with
  | none =>
    simp only [demotedDefender, hld] at h
    exact Option.noConfusion h
  | some d0 =>
    simp only [demotedDefender, hld] at h
    by_cases hp : placed.contains d0.id
    · rw [if_pos hp] at h; cases h
    · rw [if_neg hp] at h
      obtain rfl : d0 = d := by injection h
      exact ⟨rfl, by simpa using hp⟩

theorem defenderInPool_spec {pool : List PoolAgent} {placed : List String} {lot : Lot}
    {a : PoolAgent} {d : Occupant}
    (hd : demotedDefender placed lot = some d)
    (h : defenderInPool pool placed lot = some a) :
    a ∈ pool ∧ a.id = d.id := by
  simp only [defenderInPool, hd] at h
  cases hf : pool.find? (fun x => decide (x.id = d.id)) with
  | none => rw [hf] at h; cases h
  | some b =>
    rw [hf] at h
    dsimp only at h
    by_cases hp : placed.contains b.id
    · rw [if_pos hp] at h; cases h
    · rw [if_neg hp] at h
      obtain rfl : b = a := by injection h
      exact ⟨List.mem_of_find?_eq_some hf, by simpa using List.find?_some hf⟩

/-- The `defenderInPool || defender` fallback always carries the defender's
identity. -/
theorem defenderFallback_id {pool : List PoolAgent} {placed : List String} {lot : Lot}
    {d : Occupant} (hd : demotedDefender placed lot = some d) :
    ((defenderInPool pool placed lot).getD (occupantAsBidder d)).id = d.id := by
  cases hdip : defenderInPool pool placed lot with
  | none => rfl
  | some a =>
    simpa using (defenderInPool_spec hd hdip).2

/-- Under pool/lot wealth consistency the fallback also carries the defender's
wealth. -/
theorem defenderFallback_wealth {pool : List PoolAgent} {placed : List String}
    {lot : Lot} {d : Occupant} (hd : demotedDefender placed lot = some d)
    (hdw : ∀ a ∈ pool, a.id = d.id → a.wealth = d.wealth) :
    ((defenderInPool pool placed lot).getD (occupantAsBidder d)).wealth = d.wealth := by
  cases hdip : defenderInPool pool placed lot with
  | none => rfl
  | some a =>
    obtain ⟨hmem, hid⟩ := defenderInPool_spec hd hdip
    simpa using hdw a hmem hid

/-! ### C1: the five-outcome auction table -/

/-- C1: for every lot with a non-empty eligible set, the winner and the
recorded lease price follow the five-outcome table: no defender — the
wealthiest eligible agent wins, paying `max(currentValue, second.wealth)` with
at least two eligible agents and exactly `currentValue` with one; a defender
and no other eligible agent — the defender wins at `currentValue`; a
challenger (wealthiest eligible agent with another identity) of strictly
greater wealth wins at `max(currentValue, defenderWealth + 1)`; an equal-wealth
challenger loses, the defender paying exactly the challenger's wealth; a
strictly poorer challenger loses, the defender paying
`max(currentValue, challengerWealth + 1)`. -/
theorem georgist_C1 (pool : List PoolAgent) (placed : List String) (lot : Lot)
    (hsorted : List.Sorted agentBefore pool)
    (hne : eligibleOf pool placed lot ≠ []) :
    ∃ res : AuctionRes, auctionOutcome pool placed lot = some res
      ∧ (demotedDefender placed lot = none →
           (res.winner ∈ eligibleOf pool placed lot
             ∧ ∀ a ∈ eligibleOf pool placed lot, a.wealth ≤ res.winner.wealth)
           ∧ (2 ≤ (eligibleOf pool placed lot).length →
               res.leasePrice = max lot.currentValue
                 (((eligibleOf pool placed lot).getD 1 default).wealth : ℚ))
           ∧ ((eligibleOf pool placed lot).length = 1 →
               res.leasePrice = lot.currentValue))
      ∧ (∀ d : Occupant, demotedDefender placed lot = some d →
           ((∀ a ∈ eligibleOf pool placed lot, a.id = d.id) →
               res.winner.id = d.id ∧ res.leasePrice = lot.currentValue)
           ∧ (∀ c : PoolAgent,
                (eligibleOf pool placed lot).find? (fun a => a.id ≠ d.id) = some c →
                (c ∈ eligibleOf pool placed lot ∧ c.id ≠ d.id
                   ∧ ∀ a ∈ eligibleOf pool placed lot, a.id ≠ d.id → a.wealth ≤ c.wealth)
                ∧ (d.wealth < c.wealth →
                     res.winner = c
                     ∧ res.leasePrice = max lot.currentValue ((d.wealth : ℚ) + 1))
                ∧ (c.wealth = d.wealth →
                     res.winner.id = d.id ∧ res.leasePrice = (c.wealth : ℚ))
                ∧ (c.wealth < d.wealth →
                     res.winner.id = d.id
                     ∧ res.leasePrice = max lot.currentValue ((c.wealth : ℚ) + 1)))) := by
  obtain ⟨e0, rest, helig⟩ := List.exists_cons_of_ne_nil hne
  have hsortedE : List.Sorted agentBefore (eligibleOf pool placed lot) :=
    eligibleOf_sorted placed lot hsorted
  cases hd : demotedDefender placed lot with
  | none =>
    cases hrest : rest with
    | nil =>
      refine ⟨⟨e0, lot.currentValue, false, .vacantClaim⟩, ?_, ?_, ?_⟩
      · simp only [auctionOutcome, hd, helig, hrest]
      · intro _
        subst hrest
        refine ⟨⟨?_, ?_⟩, ?_, ?_⟩
        · rw [helig]; exact List.mem_cons_self _ _
        · rw [helig] at hsortedE ⊢; exact sorted_head_max hsortedE
        · rw [helig]; intro h2; simp at h2
        · intro _; rfl
      · intro d hd2; exact Option.noConfusion hd2
    | cons e1 rest2 =>
      refine ⟨⟨e0, max lot.currentValue (e1.wealth : ℚ), true,
          .contestedVacant e1.id e1.wealth⟩, ?_, ?_, ?_⟩
      · simp only [auctionOutcome, hd, helig, hrest]
      · intro _
        subst hrest
        refine ⟨⟨?_, ?_⟩, ?_, ?_⟩
        · rw [helig]; exact List.mem_cons_self _ _
        · rw [helig] at hsortedE ⊢; exact sorted_head_max hsortedE
        · intro _; rw [helig]; rfl
        · rw [helig]; intro h1; simp at h1
      · intro d hd2; exact Option.noConfusion hd2
  | some d =>
    cases hc : (eligibleOf pool placed lot).find? (fun a => a.id ≠ d.id) with
    | none =>
      refine ⟨⟨(defenderInPool pool placed lot).getD (occupantAsBidder d),
          lot.currentValue, false, .uncontestedRenewal⟩, ?_, ?_, ?_⟩
      · rw [helig] at hc
        simp only [auctionOutcome, hd, helig, hc]
      · intro hnone; exact Option.noConfusion hnone
      · intro d' hd'
        obtain rfl : d = d' := by injection hd'
        refine ⟨?_, ?_⟩
        · intro _
          exact ⟨defenderFallback_id hd, rfl⟩
        · intro c hc'
          rw [hc] at hc'
          exact Option.noConfusion hc'
    | some c =>
      obtain ⟨hcmem, hcpred, hcmax⟩ := find?_sorted_max hsortedE hc
      have hcneq : c.id ≠ d.id := by simpa using hcpred
      have hcmax' : ∀ a ∈ eligibleOf pool placed lot, a.id ≠ d.id → a.wealth ≤ c.wealth := by
        intro a ha hne'
        exact hcmax a ha (by simpa using hne')
      rcases lt_trichotomy d.wealth c.wealth with hlt | heq | hgt
      · refine ⟨⟨c, max lot.currentValue ((d.wealth : ℚ) + 1), true,
            .challengerWins d.id d.wealth (max lot.currentValue ((d.wealth : ℚ) + 1))⟩,
            ?_, ?_, ?_⟩
        · rw [helig] at hc
          simp only [auctionOutcome, hd, helig, hc, if_pos hlt]
        · intro hnone; exact Option.noConfusion hnone
        · intro d' hd'
          obtain rfl : d = d' := by injection hd'
          refine ⟨?_, ?_⟩
          · intro habs
            exact absurd (habs c hcmem) hcneq
          · intro c' hc'
            rw [hc] at hc'
            obtain rfl : c = c' := by injection hc'
            refine ⟨⟨hcmem, hcneq, hcmax'⟩, ?_, ?_, ?_⟩
            · intro _; exact ⟨rfl, rfl⟩
            · intro habs; omega
            · intro habs; omega
      · refine ⟨⟨(defenderInPool pool placed lot).getD (occupantAsBidder d),
            (c.wealth : ℚ), true, .defenderWinsTie c.id c.wealth (c.wealth : ℚ)⟩,
            ?_, ?_, ?_⟩
        · rw [helig] at hc
          simp only [auctionOutcome, hd, helig, hc,
            if_neg (show ¬ d.wealth < c.wealth by omega), if_pos heq.symm]
        · intro hnone; exact Option.noConfusion hnone
        · intro d' hd'
          obtain rfl : d = d' := by injection hd'
          refine ⟨?_, ?_⟩
          · intro habs
            exact absurd (habs c hcmem) hcneq
          · intro c' hc'
            rw [hc] at hc'
            obtain rfl : c = c' := by injection hc'
            refine ⟨⟨hcmem, hcneq, hcmax'⟩, ?_, ?_, ?_⟩
            · intro habs; omega
            · intro _; exact ⟨defenderFallback_id hd, rfl⟩
            · intro habs; omega
      · refine ⟨⟨(defenderInPool pool placed lot).getD (occupantAsBidder d),
            max lot.currentValue ((c.wealth : ℚ) + 1), true,
            .defenderWins c.id c.wealth (max lot.currentValue ((c.wealth : ℚ) + 1))⟩,
            ?_, ?_, ?_⟩
        · rw [helig] at hc
          simp only [auctionOutcome, hd, helig, hc,
            if_neg (show ¬ d.wealth < c.wealth by omega),
            if_neg (show ¬ c.wealth = d.wealth by omega)]
        · intro hnone; exact Option.noConfusion hnone
        · intro d' hd'
          obtain rfl : d = d' := by injection hd'
          refine ⟨?_, ?_⟩
          · intro habs
            exact absurd (habs c hcmem) hcneq
          · intro c' hc'
            rw [hc] at hc'
            obtain rfl : c = c' := by injection hc'
            refine ⟨⟨hcmem, hcneq, hcmax'⟩, ?_, ?_, ?_⟩
            · intro habs; omega
            · intro habs; omega
            · intro _; exact ⟨defenderFallback_id hd, rfl⟩

/-! ### C9: price bounded by current value and winner wealth -/

/-- C9: whenever the auction engine resolves a lot with a winner, the recorded
lease price satisfies `currentValue ≤ leasePrice ≤ winner.wealth` (wealth is
integral by construction; the pool is consulted in sorted order and pool
entries carrying the defender's identity carry the defender's wealth). -/
theorem georgist_C9 (pool : List PoolAgent) (placed : List String) (lot : Lot)
    (res : AuctionRes)
    (hsorted : List.Sorted agentBefore pool)
    (hdw : ∀ a ∈ pool, ∀ d : Occupant, lot.defender = some d →
        a.id = d.id → a.wealth = d.wealth)
    (hres : auctionOutcome pool placed lot = some res) :
    lot.currentValue ≤ res.leasePrice ∧ res.leasePrice ≤ (res.winner.wealth : ℚ) := by
  have hsortedE : List.Sorted agentBefore (eligibleOf pool placed lot) :=
    eligibleOf_sorted placed lot hsorted
  cases helig : eligibleOf pool placed lot with
  | nil =>
    simp only [auctionOutcome, helig] at hres
    exact Option.noConfusion hres
  | cons e0 rest =>
    have he0 : e0 ∈ eligibleOf pool placed lot := by
      rw [helig]; exact List.mem_cons_self _ _
    obtain ⟨he0pool, -, he0afford⟩ := mem_eligibleOf he0
    cases hd : demotedDefender placed lot with
    | none =>
      cases hrest : rest with
      | nil =>
        subst hrest
        simp only [auctionOutcome, hd, helig] at hres
        replace hres := Option.some.inj hres
        subst hres
        exact ⟨le_refl _, he0afford⟩
      | cons e1 rest2 =>
        subst hrest
        simp only [auctionOutcome, hd, helig] at hres
        replace hres := Option.some.inj hres
        subst hres
        refine ⟨le_max_left _ _, max_le he0afford ?_⟩
        have h10 : e1.wealth ≤ e0.wealth := by
          rw [helig] at hsortedE
          exact List.rel_of_sorted_cons hsortedE e1 (List.mem_cons_self _ _)
        exact_mod_cast h10
    | some d =>
      obtain ⟨hld, -⟩ := demotedDefender_spec hd
      have hdw' : ∀ a ∈ pool, a.id = d.id → a.wealth = d.wealth :=
        fun a ha hid => hdw a ha d hld hid
      have hwfall :
          ((defenderInPool pool placed lot).getD (occupantAsBidder d)).wealth
            = d.wealth := defenderFallback_wealth hd hdw'
      cases hc : (eligibleOf pool placed lot).find? (fun a => a.id ≠ d.id) with
      | none =>
        have he0id : e0.id = d.id := by
          have := List.find?_eq_none.mp hc e0 he0
          simpa using this
        have he0w : e0.wealth = d.wealth := hdw' e0 he0pool he0id
        rw [helig] at hc
        simp only [auctionOutcome, hd, helig, hc] at hres
        replace hres := Option.some.inj hres
        subst hres
        refine ⟨le_refl _, ?_⟩
        dsimp only
        rw [hwfall, ← he0w]
        exact he0afford
      | some c =>
        have hcmem : c ∈ eligibleOf pool placed lot := List.mem_of_find?_eq_some hc
        obtain ⟨hcpool, -, hcafford⟩ := mem_eligibleOf hcmem
        rw [helig] at hc
        rcases lt_trichotomy d.wealth c.wealth with hlt | heq | hgt
        · simp only [auctionOutcome, hd, helig, hc, if_pos hlt] at hres
          replace hres := Option.some.inj hres
          subst hres
          refine ⟨le_max_left _ _, max_le hcafford ?_⟩
          have : d.wealth + 1 ≤ c.wealth := by omega
          exact_mod_cast this
        · simp only [auctionOutcome, hd, helig, hc,
            if_neg (show ¬ d.wealth < c.wealth by omega), if_pos heq.symm] at hres
          replace hres := Option.some.inj hres
          subst hres
          refine ⟨hcafford, ?_⟩
          dsimp only
          rw [hwfall]
          exact_mod_cast le_of_eq heq.symm
        · simp only [auctionOutcome, hd, helig, hc,
            if_neg (show ¬ d.wealth < c.wealth by omega),
            if_neg (show ¬ c.wealth = d.wealth by omega)] at hres
          replace hres := Option.some.inj hres
          subst hres
          refine ⟨le_max_left _ _, ?_⟩
          dsimp only
          rw [hwfall]
          refine max_le (le_trans hcafford ?_) ?_
          · exact_mod_cast le_of_lt hgt
          · have : c.wealth + 1 ≤ d.wealth := by omega
            exact_mod_cast this

/-- Fixtures for the C9 witness: defender wealth 6, challenger wealth 9,
current value 8 — the challenger wins at `max(8, 7) = 8 ≤ 9`. -/
def c9Pool : List PoolAgent := [⟨"C", 9, 0, none⟩, ⟨"D", 6, 0, none⟩]

def c9Lot : Lot := ⟨0, 8, none, some ⟨"D", 6, 0, 0, 1⟩⟩

def c9Res : AuctionRes := ⟨⟨"C", 9, 0, none⟩, 8, true, .challengerWins "D" 6 8⟩

theorem georgist_C9_witness :
    c9Lot.currentValue ≤ c9Res.leasePrice
      ∧ c9Res.leasePrice ≤ (c9Res.winner.wealth : ℚ) :=
  georgist_C9 c9Pool [] c9Lot c9Res (by decide)
    (by
      intro a ha d hd hid
      obtain rfl := Option.some.inj hd
      simp only [c9Pool, List.mem_cons, List.not_mem_nil, or_false] at ha
      rcases ha with rfl | rfl
      · exact absurd hid (by decide)
      · rfl)
    (by with_unfolding_all decide)

/-- Fixtures for the C1 witness: a vacant lot of value 8 contested by agents
of wealth 20 and 15 (the spec's own example: the wealth-20 agent wins at
`max(8, 15) = 15`). -/
def c1Pool : List PoolAgent := [⟨"A", 20, 0, none⟩, ⟨"B", 15, 0, none⟩]

def c1Lot : Lot := ⟨0, 8, none, none⟩

theorem georgist_C1_witness :
    ∃ res : AuctionRes, auctionOutcome c1Pool [] c1Lot = some res
      ∧ (demotedDefender [] c1Lot = none →
           (res.winner ∈ eligibleOf c1Pool [] c1Lot
             ∧ ∀ a ∈ eligibleOf c1Pool [] c1Lot, a.wealth ≤ res.winner.wealth)
           ∧ (2 ≤ (eligibleOf c1Pool [] c1Lot).length →
               res.leasePrice = max c1Lot.currentValue
                 (((eligibleOf c1Pool [] c1Lot).getD 1 default).wealth : ℚ))
           ∧ ((eligibleOf c1Pool [] c1Lot).length = 1 →
               res.leasePrice = c1Lot.currentValue))
      ∧ (∀ d : Occupant, demotedDefender [] c1Lot = some d →
           ((∀ a ∈ eligibleOf c1Pool [] c1Lot, a.id = d.id) →
               res.winner.id = d.id ∧ res.leasePrice = c1Lot.currentValue)
           ∧ (∀ c : PoolAgent,
                (eligibleOf c1Pool [] c1Lot).find? (fun a => a.id ≠ d.id) = some c →
                (c ∈ eligibleOf c1Pool [] c1Lot ∧ c.id ≠ d.id
                   ∧ ∀ a ∈ eligibleOf c1Pool [] c1Lot, a.id ≠ d.id → a.wealth ≤ c.wealth)
                ∧ (d.wealth < c.wealth →
                     res.winner = c
                     ∧ res.leasePrice = max c1Lot.currentValue ((d.wealth : ℚ) + 1))
                ∧ (c.wealth = d.wealth →
                     res.winner.id = d.id ∧ res.leasePrice = (c.wealth : ℚ))
                ∧ (c.wealth < d.wealth →
                     res.winner.id = d.id
                     ∧ res.leasePrice = max c1Lot.currentValue ((c.wealth : ℚ) + 1)))) :=
  georgist_C1 c1Pool [] c1Lot (by decide) (by with_unfolding_all decide)

/-! ### C7: lease price present iff occupant present -/

/-- The C7 invariant for one parcel. -/
def priceMatchesOccupancy (p : Parcel) : Prop :=
  p.leasePrice.isSome = p.occupant.isSome

theorem lp_mapIdxL {f : Nat → Parcel → Parcel}
    (hf : ∀ j x, priceMatchesOccupancy x → priceMatchesOccupancy (f j x))
    {ps : List Parcel} (h : ∀ p ∈ ps, priceMatchesOccupancy p) :
    ∀ p ∈ mapIdxL f ps, priceMatchesOccupancy p := by
  intro p hp
  obtain ⟨j, x, hx, rfl⟩ := mem_mapIdxL hp
  exact hf j x (h x hx)

theorem lp_modifyAt {f : Parcel → Parcel}
    (hf : ∀ x, priceMatchesOccupancy x → priceMatchesOccupancy (f x))
    {ps : List Parcel} {i : Nat} (h : ∀ p ∈ ps, priceMatchesOccupancy p) :
    ∀ p ∈ modifyAt ps i f, priceMatchesOccupancy p := by
  intro p hp
  rcases mem_modifyAt hp with hmem | ⟨x, hx, rfl⟩
  · exact h p hmem
  · exact hf x (h x hx)

theorem lp_pushEvent {ps : List Parcel} {i : Nat} {e : HEvent}
    (h : ∀ p ∈ ps, priceMatchesOccupancy p) :
    ∀ p ∈ pushEvent ps i e, priceMatchesOccupancy p := by
  unfold pushEvent
  apply lp_modifyAt
  · intro x hx; exact hx
  · exact h

theorem lp_updateAllCommunityScores {ps : List Parcel}
    (h : ∀ p ∈ ps, priceMatchesOccupancy p) :
    ∀ p ∈ updateAllCommunityScores ps, priceMatchesOccupancy p := by
  unfold updateAllCommunityScores
  apply lp_mapIdxL
  · intro j x hx; exact hx
  · exact h

theorem lp_scanExpired (cfg : Config) (currentRound : Int) {ps0 : List Parcel}
    (h : ∀ p ∈ ps0, priceMatchesOccupancy p) :
    ∀ p ∈ (scanExpired cfg currentRound ps0).1, priceMatchesOccupancy p := by
  unfold scanExpired
  refine foldl_preserve
    (fun acc : List Parcel × List Lot × List PoolAgent =>
      ∀ p ∈ acc.1, priceMatchesOccupancy p)
    _ (List.range ps0.length) (ps0, [], []) h ?_
  intro acc i hacc
  dsimp only
  split
  · split
    · apply lp_modifyAt
      · intro x _; rfl
      · exact hacc
    · exact hacc
  · exact hacc

theorem lp_runLot (cfg : Config) (ent : Entropy) (currentRound : Int)
    (pool : List PoolAgent) {s : AuctionState} (lot : Lot)
    (h : ∀ p ∈ s.parcels, priceMatchesOccupancy p) :
    ∀ p ∈ (runLot cfg ent currentRound pool s lot).parcels,
      priceMatchesOccupancy p := by
  unfold runLot
  split
  · split
    · exact lp_pushEvent h
    · exact h
  · dsimp only
    apply lp_modifyAt
    · intro x _; rfl
    · apply lp_mapIdxL
      · intro j x hx
        split
        · rfl
        · exact hx
      · exact lp_pushEvent h

theorem lp_updateVacancy {ps : List Parcel}
    (h : ∀ p ∈ ps, priceMatchesOccupancy p) :
    ∀ p ∈ updateVacancy ps, priceMatchesOccupancy p := by
  intro p hp
  unfold updateVacancy at hp
  obtain ⟨x, hx, rfl⟩ := List.mem_map.mp hp
  have hx' := h x hx
  dsimp only
  split <;> split <;> exact hx'

/-- C7: `leasePrice` is present iff `occupant` is present — at grid
initialization and after every completed round (given it held when the round
began). -/
theorem georgist_C7 :
    (∀ p ∈ initializeParcels, priceMatchesOccupancy p)
    ∧ ∀ (cfg : Config) (ent : Entropy) (st : SimState),
        (∀ p ∈ st.parcels, priceMatchesOccupancy p)
        → ∀ p ∈ (processRound cfg ent st).parcels, priceMatchesOccupancy p := by
  constructor
  · intro p hp
    obtain ⟨row, -, hrow⟩ := List.mem_flatMap.mp hp
    obtain ⟨col, -, rfl⟩ := List.mem_map.mp hrow
    rfl
  · intro cfg ent st h p hp
    simp only [processRound] at hp
    have h1 : ∀ q ∈ (preAuction cfg st).parcels, priceMatchesOccupancy q := by
      simp only [preAuction]
      exact lp_scanExpired cfg (st.round + 1) (lp_updateAllCommunityScores h)
    have h2 : ∀ q ∈ ((roundLots cfg st).foldl
        (runLot cfg ent (preAuction cfg st).currentRound (roundPool cfg ent st))
        ⟨(preAuction cfg st).parcels, [], 0⟩).parcels, priceMatchesOccupancy q := by
      refine foldl_preserve
        (fun a : AuctionState => ∀ q ∈ a.parcels, priceMatchesOccupancy q)
        _ (roundLots cfg st) _ h1 ?_
      intro a lot ha
      exact lp_runLot cfg ent (preAuction cfg st).currentRound
        (roundPool cfg ent st) lot ha
    exact lp_updateAllCommunityScores (lp_updateVacancy h2) p hp

/-- Witness: the invariant holds at reset and is carried through one round of
the default configuration. -/
def witnessEntropy : Entropy := ⟨fun i => "immigrant-" ++ toString i, fun _ => 7, fun _ => 3⟩

theorem georgist_C7_witness :
    ∀ p ∈ (processRound defaultConfig witnessEntropy initState).parcels,
      priceMatchesOccupancy p :=
  georgist_C7.2 defaultConfig witnessEntropy initState
    (by
      intro p hp
      obtain ⟨row, -, hrow⟩ := List.mem_flatMap.mp hp
      obtain ⟨col, -, rfl⟩ := List.mem_map.mp hrow
      rfl)

/-! ### C3: determinism from a seedable generator -/

/-- C3 (code bug): the round step is not a function of state and configuration
alone — the configuration carries no seed, and immigrant wealth/identity and
lease lengths are drawn from ambient `Math.random()`/`Date.now()`.  Two runs
from the identical round-0 state and identical configuration, differing only
in the ambient randomness, produce different states (here: the single
immigrant's wealth roll decides whether parcel 0 gets occupied). -/
theorem georgist_C3_bug :
    processRound cfgC3 (c3Entropy 0) initState
      ≠ processRound cfgC3 (c3Entropy 1) initState := by
  intro h
  have h0 : ((processRound cfgC3 (c3Entropy 0) initState).parcels.getD 0
      default).occupant.isSome = true := by
    with_unfolding_all rfl
  have h1 : ((processRound cfgC3 (c3Entropy 1) initState).parcels.getD 0
      default).occupant.isSome = false := by
    with_unfolding_all rfl
  rw [h, h1] at h0
  exact Bool.noConfusion h0

/-! ### C4: double occupancy must abort, not patch -/

/-- C4 (code bug): on a state where identity `"X"` occupies parcels 9 and 19
simultaneously, the round-processing step does not abort: it completes the
round (round increments to 1), re-places `"X"` on parcel 9 via the
defender-tie branch, and silently clears parcel 19 in the duplicate-agent
safeguard — exactly the silent de-duplication the claim forbids. -/
theorem georgist_C4_bug :
    ((corruptState.parcels.getD 9 default).occupant.map Occupant.id = some "X"
        ∧ (corruptState.parcels.getD 19 default).occupant.map Occupant.id = some "X")
      ∧ (processRound cfgC4 (c3Entropy 0) corruptState).round
          = corruptState.round + 1
      ∧ ((processRound cfgC4 (c3Entropy 0) corruptState).parcels.getD 9
          default).occupant.map Occupant.id = some "X"
      ∧ ((processRound cfgC4 (c3Entropy 0) corruptState).parcels.getD 19
          default).occupant = none := by
  refine ⟨⟨?_, ?_⟩, ?_, ?_, ?_⟩
  · with_unfolding_all rfl
  · with_unfolding_all rfl
  · with_unfolding_all rfl
  · with_unfolding_all rfl
  · with_unfolding_all rfl

end Georgist
